import Mathlib

/-!
Verification development for the filestorage repository.

Go values are modelled shallowly:
* a Go string is a list of bytes (`GoStr := List Nat`), matching Go's
  byte-slice view of strings (`len`, `hex.DecodeString` and the character
  range checks all operate on bytes);
* Go maps with integer values are total functions with default `0`
  (a missing key reads as `0`, and `delete` at value `0` is invisible);
* absolute times are integers (`time.Time.Before` is strict `<`);
* filesystem paths are lists of path components.
-/

namespace FileStorage

/-! ## ID parse/format (pkg/artifact/id.go, variant cited by the claims)

`type ID [20]byte`.
`FromString(s)`: `len(s) != 40` is an error, otherwise `hex.DecodeString(s)`
(which accepts the digits and both `a-f` and `A-F`) and copy the bytes.
`String()` formats with `%X`, producing uppercase hex. -/

abbrev GoStr := List Nat

/-- Value of one hex character byte, mirroring Go `encoding/hex.fromHexChar`:
digits `0-9`, lowercase `a-f`, uppercase `A-F`. -/
def hexDigitValue (c : Nat) : Option Nat :=
  if 48 ≤ c ∧ c ≤ 57 then some (c - 48)
  else if 97 ≤ c ∧ c ≤ 102 then some (c - 97 + 10)
  else if 65 ≤ c ∧ c ≤ 70 then some (c - 65 + 10)
  else none

/-- `encoding/hex.Decode`: consume the byte string two characters at a time;
a stray trailing character or a non-hex character is an error. -/
def decodeHex : GoStr → Option (List Nat)
  | [] => some []
  | [_] => none
  | c1 :: c2 :: rest =>
    match hexDigitValue c1, hexDigitValue c2, decodeHex rest with
    | some h, some l, some bs => some ((h * 16 + l) :: bs)
    | _, _, _ => none

/-- `ID.FromString` of pkg/artifact/id.go: length must be 40, then hex-decode. -/
def idFromString (s : GoStr) : Option (List Nat) :=
  if s.length = 40 then decodeHex s else none

/-- One hex digit of `%X` formatting (uppercase alphabet `0123456789ABCDEF`). -/
def hexDigitUpper (n : Nat) : Nat :=
  if n < 10 then 48 + n else 55 + n

/-- `ID.String` of pkg/artifact/id.go: `fmt.Sprintf("%X", id[:])`,
two uppercase hex characters per byte. -/
def idString (bs : List Nat) : GoStr :=
  bs.flatMap (fun b => [hexDigitUpper (b / 16), hexDigitUpper (b % 16)])

/-- A byte list is a valid ID value: 20 bytes, each below 256. -/
def validIdBytes (bs : List Nat) : Prop :=
  bs.length = 20 ∧ ∀ b ∈ bs, b < 256

/-- A byte is an uppercase-case hex character (digit or `A-F`),
the case emitted by `String()`. -/
def isUpperHexByte (c : Nat) : Bool :=
  (48 ≤ c && c ≤ 57) || (65 ≤ c && c ≤ 70)

/-- A byte is a hex character in any case accepted by `hex.DecodeString`. -/
def isHexByte (c : Nat) : Bool :=
  (hexDigitValue c).isSome

/-- Case normalization on one byte: fold `a-f` to `A-F`, leave the rest. -/
def toUpperHexByte (c : Nat) : Nat :=
  if 97 ≤ c ∧ c ≤ 102 then c - 32 else c

/-! ## Locker (internal/lib/locker/locker.go)

`writeLocked map[any]struct{}` and `readLocked map[any]int` guarded by a
mutex.  The map of read counts is modelled as a total function with default
`0`: Go reads a missing key as `0`, and the `delete` performed when the count
reaches `0` does not change that view.  Counts are `Int` exactly as Go `int`:
`ReadUnlock` decrements unconditionally. -/

structure Locker (K : Type) where
  writeLocked : K → Bool
  readLocked : K → Int

/-- `NewLocker`: both maps empty. -/
def Locker.new (K : Type) : Locker K :=
  { writeLocked := fun _ => false, readLocked := fun _ => 0 }

/-- Errors of pkg/errors/errors.go (bucket variant). -/
inductive Err where
  | bucketNotFound
  | fileNotFound
  | bucketAlreadyExists
  | fileAlreadyExists
  | writeLocked
  | readLocked
  deriving DecidableEq, Repr

variable {K : Type} [DecidableEq K]

/-- Pointwise update of a map modelled as a function. -/
def upd (f : K → α) (k : K) (v : α) : K → α :=
  fun x => if x = k then v else f x

/-- `Locker.ReadLock`: fails with `ErrWriteLocked` (state unchanged) if the key
is write-locked, otherwise increments the read count. -/
def Locker.ReadLock (l : Locker K) (k : K) : Option Err × Locker K :=
  if l.writeLocked k then (some .writeLocked, l)
  else (none, { l with readLocked := upd l.readLocked k (l.readLocked k + 1) })

/-- `Locker.ReadUnlock`: unconditionally decrements the read count
(`delete` at zero is invisible in the total-function model). -/
def Locker.ReadUnlock (l : Locker K) (k : K) : Locker K :=
  { l with readLocked := upd l.readLocked k (l.readLocked k - 1) }

/-- `Locker.WriteLock`: fails with `ErrWriteLocked` if the key is
write-locked, with `ErrReadLocked` if its read count is positive,
otherwise records the writer. -/
def Locker.WriteLock (l : Locker K) (k : K) : Option Err × Locker K :=
  if l.writeLocked k then (some .writeLocked, l)
  else if l.readLocked k > 0 then (some .readLocked, l)
  else (none, { l with writeLocked := upd l.writeLocked k true })

/-- `Locker.WriteUnlock`: removes the writer mark. -/
def Locker.WriteUnlock (l : Locker K) (k : K) : Locker K :=
  { l with writeLocked := upd l.writeLocked k false }

/-! ### Traces of locker operations (for the exclusion invariant, C3) -/

/-- One call against the locker. -/
inductive LockOp (K : Type) where
  | readLock (k : K)
  | readUnlock (k : K)
  | writeLock (k : K)
  | writeUnlock (k : K)

/-- Effect of one call on the locker state.  Failed lock acquisitions leave
the state unchanged, exactly as the code returns the error before mutating. -/
def lockStep (l : Locker K) : LockOp K → Locker K
  | .readLock k => (l.ReadLock k).2
  | .readUnlock k => l.ReadUnlock k
  | .writeLock k => (l.WriteLock k).2
  | .writeUnlock k => l.WriteUnlock k

/-- The guard expressing that an unlock matches a previously granted lock that
is still outstanding: a `ReadUnlock` requires an unreleased read grant on the
key (positive count), a `WriteUnlock` an unreleased write grant.  `readLocked`
counts exactly the outstanding read grants, so this is the matching
discipline of the claim.  Lock acquisitions are always permitted (they can
fail on their own). -/
def opAllowed (l : Locker K) : LockOp K → Prop
  | .readLock _ => True
  | .readUnlock k => l.readLocked k > 0
  | .writeLock _ => True
  | .writeUnlock k => l.writeLocked k = true

/-- States reachable from the fresh locker by sequences of calls in which
every unlock matches a previously granted lock. -/
inductive LockerReachable : Locker K → Prop where
  | init : LockerReachable (Locker.new K)
  | step {l : Locker K} {op : LockOp K} :
      LockerReachable l → opAllowed l op → LockerReachable (lockStep l op)

/-! ## Storage (internal/storage/storage.go, locker-based variant)

The filesystem visible to Storage is modelled by existence flags:
`buckets id` is the stat of `<root>/storage/<shard>/<ID>/`, `files id f` the
stat of a file inside that bucket, `tmpBuckets`/`tmpFiles` the staging area
under `<root>/tmp/<ID>`.  Local filesystem calls (`MkdirAll`, meta write,
`Rename` of an existing staging directory, `RemoveAll`) succeed in the model;
the claims under study only concern lock handling and error results. -/

structure StorageState (K : Type) where
  locker : Locker K
  buckets : K → Bool
  files : K → String → Bool
  tmpBuckets : K → Bool
  tmpFiles : K → String → Bool

variable {K : Type} [DecidableEq K]

/-- `GetBucket`: read-lock, stat the bucket directory; if missing release the
read lock and fail with `ErrBucketNotFound`; otherwise return with the read
lock still held (the caller releases it through `unlock`). -/
def getBucket (s : StorageState K) (id : K) : Option Err × StorageState K :=
  match s.locker.ReadLock id with
  | (some e, _) => (some e, s)
  | (none, l) =>
    let s := { s with locker := l }
    if s.buckets id then (none, s)
    else (some .bucketNotFound, { s with locker := s.locker.ReadUnlock id })

/-- The `unlock` closure returned by a successful `GetBucket`. -/
def getBucketUnlock (s : StorageState K) (id : K) : StorageState K :=
  { s with locker := s.locker.ReadUnlock id }

/-- `CreateBucket` up to the point where it returns: write-lock the id (on
failure return with the state unchanged); if the bucket directory already
exists return `ErrBucketAlreadyExists` — the source returns directly here,
without `WriteUnlock`; otherwise create the staging directory `tmp/<ID>` and
its meta file and return success (the write lock stays held for
`commit`/`abort`). -/
def createBucket (s : StorageState K) (id : K) : Option Err × StorageState K :=
  match s.locker.WriteLock id with
  | (some e, _) => (some e, s)
  | (none, l) =>
    let s := { s with locker := l }
    if s.buckets id then (some .bucketAlreadyExists, s)
    else (none, { s with tmpBuckets := upd s.tmpBuckets id true })

/-- The `commit` closure of `CreateBucket`: rename `tmp/<ID>` to the shard
path, then write-unlock. -/
def commitBucket (s : StorageState K) (id : K) : StorageState K :=
  { s with
    buckets := upd s.buckets id true
    tmpBuckets := upd s.tmpBuckets id false
    locker := s.locker.WriteUnlock id }

/-- The `abort` closure of `CreateBucket`: remove the staging directory, then
write-unlock. -/
def abortBucket (s : StorageState K) (id : K) : StorageState K :=
  { s with
    tmpBuckets := upd s.tmpBuckets id false
    locker := s.locker.WriteUnlock id }

/-- `CreateFile` up to the point where it returns: write-lock the *bucket id*
(the source locks the whole bucket, not a composite key); missing bucket or
already-present file return their errors (again without unlocking); otherwise
stage the file under `tmp/<ID>` and return success with the bucket write lock
held. -/
def createFile (s : StorageState K) (b : K) (f : String) :
    Option Err × StorageState K :=
  match s.locker.WriteLock b with
  | (some e, _) => (some e, s)
  | (none, l) =>
    let s := { s with locker := l }
    if ¬ s.buckets b then (some .bucketNotFound, s)
    else if s.files b f then (some .fileAlreadyExists, s)
    else (none, { s with tmpFiles := fun b1 f1 =>
                   if b1 = b ∧ f1 = f then true else s.tmpFiles b1 f1 })

/-- The `commit` closure of `CreateFile`: rename the staged file into the
bucket, then write-unlock the bucket. -/
def commitFile (s : StorageState K) (b : K) (f : String) : StorageState K :=
  { s with
    files := fun b1 f1 => if b1 = b ∧ f1 = f then true else s.files b1 f1
    tmpFiles := fun b1 f1 => if b1 = b ∧ f1 = f then false else s.tmpFiles b1 f1
    locker := s.locker.WriteUnlock b }

/-- The `abort` closure of `CreateFile`: `RemoveAll` of `tmp/<ID>` drops every
file staged under that bucket, then write-unlock the bucket. -/
def abortFile (s : StorageState K) (b : K) : StorageState K :=
  { s with
    tmpFiles := fun b1 f1 => if b1 = b then false else s.tmpFiles b1 f1
    locker := s.locker.WriteUnlock b }

/-- `GetBucketMeta`: read-lock with a deferred `ReadUnlock`; when the bucket
directory is missing the source *additionally* calls `ReadUnlock` explicitly
before returning `ErrBucketNotFound`, so that branch decrements the read
count twice; on success the meta file is read and only the deferred unlock
runs. -/
def getBucketMeta (s : StorageState K) (id : K) : Option Err × StorageState K :=
  match s.locker.ReadLock id with
  | (some e, _) => (some e, s)
  | (none, l) =>
    let s := { s with locker := l }
    if s.buckets id then
      (none, { s with locker := s.locker.ReadUnlock id })
    else
      (some .bucketNotFound,
        { s with locker := (s.locker.ReadUnlock id).ReadUnlock id })

/-- Result of the client call inside `DownloadBucket`, abstracting the HTTP
transfer: either the tar stream is received into the staging path or the
client returns an error. -/
inductive DlResult where
  | ok
  | failed
  deriving DecidableEq

/-- The error wrapping a failed client download (not one of the pkg/errors
sentinels, so `errors.Is(err, ErrBucketAlreadyExists)` is false for it). -/
inductive DownloadErr where
  | storage (e : Err)
  | client
  deriving DecidableEq

/-- `DownloadBucket`: call `CreateBucket`; `ErrBucketAlreadyExists` is mapped
to a no-op success; any other reservation error is returned; otherwise run
the client download into the staging path, aborting on failure and
committing on success. -/
def downloadBucket (s : StorageState K) (id : K) (dl : DlResult) :
    Option DownloadErr × StorageState K :=
  match createBucket s id with
  | (some .bucketAlreadyExists, s1) => (none, s1)
  | (some e, s1) => (some (.storage e), s1)
  | (none, s1) =>
    match dl with
    | .failed => (some .client, abortBucket s1 id)
    | .ok => (none, commitBucket s1 id)

/-- A storage state whose locker holds nothing on key `k`. -/
def lockFree (s : StorageState K) (k : K) : Prop :=
  s.locker.writeLocked k = false ∧ s.locker.readLocked k = 0

/-! ## Tar stream (internal/lib/tarstream: Send, SendFile, Receive)

Paths are lists of components; a Go path string is their join with `/`
(`pathString`).  `filepath.Clean` on a relative path is `cleanComps`:
empty and `.` components vanish, `..` pops the previous component unless
none is left (then it is kept, the path being relative).  A directory tree
is the list of entries `filepath.Walk` enumerates (paths relative to the
walked root, parents before children; the root itself, `rel == "."`, is not
part of the list). -/

abbrev Path := List String

/-- A component as produced by a real directory walk: a nonempty name that
is not one of the special components. -/
def validComp (c : String) : Prop :=
  c ≠ "" ∧ c ≠ "." ∧ c ≠ ".."

instance (c : String) : Decidable (validComp c) := by
  unfold validComp
  infer_instance

/-- One step of `filepath.Clean` over the reversed stack of kept components. -/
def cleanPush (acc : List String) (c : String) : List String :=
  if c = "" ∨ c = "." then acc
  else if c = ".." then
    match acc with
    | [] => [".."]
    | a :: rest => if a = ".." then c :: acc else rest
  else c :: acc

/-- `filepath.Clean` of a relative path given by components. -/
def cleanComps (cs : Path) : Path :=
  (cs.foldl cleanPush []).reverse

/-- The path string: components joined with the separator. -/
def pathString : Path → String
  | [] => ""
  | [c] => c
  | c :: cs => c ++ "/" ++ pathString cs

/-- `strings.HasPrefix s pre`. -/
def strHasPref (s pre : String) : Bool :=
  pre.data.isPrefixOf s.data

/-- A node of a materialized filesystem: a directory, or a regular file with
contents and mode bits. -/
inductive FSNode where
  | dir
  | file (content : List Nat) (mode : Nat)
  deriving DecidableEq

/-- A directory tree as enumerated by `filepath.Walk`: entries with their
path relative to the root, in walk order. -/
abbrev Tree := List (Path × FSNode)

/-- A destination filesystem: what `Receive` has materialized at each path. -/
abbrev FSMap := Path → Option FSNode

def emptyFS : FSMap := fun _ => none

/-- One tar entry as written by `Send`/`SendFile`: directory headers carry
only the name, regular-file headers carry name, size and mode (the source
sets no mode on directory headers). -/
inductive TarEntry where
  | dir (name : Path)
  | file (name : Path) (content : List Nat) (mode : Nat)
  deriving DecidableEq

/-- Header written for one walked entry. -/
def tarOf (p : Path) (n : FSNode) : TarEntry :=
  match n with
  | .dir => .dir p
  | .file c m => .file p c m

/-- `Send(dir, w)`: walk the tree and emit a header (plus contents) for every
entry, with the walk-relative name. -/
def sendDir (t : Tree) : List TarEntry :=
  t.map (fun pe => tarOf pe.1 pe.2)

/-- `SendFile(file, dir, w)`: walk the tree but skip every entry for which
`rel == "."` or `!strings.HasPrefix(normalize(file), normalize(rel))`; emit
the rest exactly as `Send` does.  The filter is a *string* prefix test on the
cleaned path strings. -/
def sendFile (file : Path) (t : Tree) : List TarEntry :=
  (t.filter (fun pe =>
      decide (pe.1 ≠ []) &&
      strHasPref (pathString (cleanComps file)) (pathString (cleanComps pe.1)))).map
    (fun pe => tarOf pe.1 pe.2)

/-- `os.MkdirAll`: create a directory at every missing ancestor of `p` and at
`p` itself (existing nodes are left untouched). -/
def mkdirAll (fs : FSMap) (p : Path) : FSMap :=
  fun q => if q ≠ [] ∧ q <+: p ∧ fs q = none then some .dir else fs q

/-- Writing one received regular file: `os.OpenFile(absPath,
os.O_CREATE|os.O_WRONLY, os.FileMode(h.Mode)&0777)` followed by the content
copy; the mode mask `&0777` is `% 512` on naturals. -/
def writeFile (fs : FSMap) (p : Path) (c : List Nat) (m : Nat) : FSMap :=
  fun q => if q = p then some (.file c (m % 512)) else fs q

/-- `Receive` handling of a single tar entry: the target path is
`filepath.Join(dir, h.Name)` (join then `Clean`); a directory header becomes
`MkdirAll`; a file header first runs `MkdirAll(filepath.Dir(absPath))` and
then writes the file. -/
def receiveOne (dst : Path) (fs : FSMap) (e : TarEntry) : FSMap :=
  match e with
  | .dir name => mkdirAll fs (cleanComps (dst ++ name))
  | .file name c m =>
    let abs := cleanComps (dst ++ name)
    writeFile (mkdirAll fs abs.dropLast) abs c m

/-- `Receive(dir, r)`: process the stream entry by entry. -/
def receive (dst : Path) (fs : FSMap) (es : List TarEntry) : FSMap :=
  es.foldl (receiveOne dst) fs

/-- Well-formedness of a walked tree: every path is nonempty with ordinary
components, paths are pairwise distinct, and no regular file path is a
proper ancestor of another entry (as in any real directory tree). -/
def wfTree (t : Tree) : Prop :=
  (∀ pe ∈ t, pe.1 ≠ [] ∧ ∀ c ∈ pe.1, validComp c) ∧
  (t.map Prod.fst).Nodup ∧
  (∀ pe ∈ t, ∀ pe1 ∈ t, pe.2 ≠ FSNode.dir → pe.1 ≠ pe1.1 →
    ¬ pe.1 <+: pe1.1)

/-! ## Trasher collection (internal/trasher/trasher.go)

`collectShard` reads the shard directory and runs `collectArtifact` on each
entry name; an error from `collectArtifact` is logged and the loop continues.
`collectArtifact` parses the directory name as an artifact ID
(internal/artifact: 20 bytes, characters `0-9A-F`), loads the meta through
the storage, and enqueues the ID iff `meta.TrashTime.Before(time.Now())`,
that is iff the current time is strictly after the trash time.  The storage
meta lookup is abstracted as an oracle `getMeta` returning the trash time or
an error, and times are integers. -/

/-- `artifact.ID.FromString` of internal/artifact/artifact.go: exactly 20
bytes, each a digit or `A`-`F`; the ID stores the string bytes themselves. -/
def artifactIdFromString (s : GoStr) : Option GoStr :=
  if s.length = 20 ∧ ∀ c ∈ s, (48 ≤ c ∧ c ≤ 57) ∨ (65 ≤ c ∧ c ≤ 70) then
    some s
  else none

/-- Outcome of `collectArtifact` for one directory name. -/
inductive CollectOutcome where
  | err
  | kept
  | enqueued (id : GoStr)
  deriving DecidableEq

/-- `collectArtifact`: parse the directory name (error if malformed), load
the meta (error surfaces unchanged), enqueue iff the trash time is strictly
before now. -/
def collectArtifact (getMeta : GoStr → Option Int) (now : Int)
    (dirName : GoStr) : CollectOutcome :=
  match artifactIdFromString dirName with
  | none => .err
  | some id =>
    match getMeta id with
    | none => .err
    | some tt => if tt < now then .enqueued id else .kept

/-- `collectShard`: run `collectArtifact` over the directory entries in
order; errors are logged and skipped, enqueued IDs accumulate in the queue. -/
def collectShard (getMeta : GoStr → Option Int) (now : Int)
    (dirs : List GoStr) : List GoStr :=
  dirs.foldl
    (fun acc d =>
      match collectArtifact getMeta now d with
      | .enqueued id => acc ++ [id]
      | _ => acc)
    []

/-! ## Lemmas and theorems -/

/-- Reader/writer exclusion invariant of the locker, proved by induction over
reachable states. -/
theorem lockerInvAux {K : Type} [DecidableEq K] {l : Locker K}
    (h : LockerReachable l) (k : K) :
    0 ≤ l.readLocked k ∧ ¬(l.writeLocked k = true ∧ 0 < l.readLocked k) := by
  induction h with
  | init => simp [Locker.new]
  | @step l op h hop ih =>
    cases op with
    | readLock k1 =>
      simp only [lockStep, Locker.ReadLock]
      split
      · exact ih
      · rename_i hw
        by_cases hk : k = k1
        · subst hk
          obtain ⟨h1, h2⟩ := ih
          simp only [upd, if_pos rfl]
          constructor
          · omega
          · simp [Bool.not_eq_true] at hw
            simp [hw]
        · simp only [upd, if_neg hk]
          exact ih
    | readUnlock k1 =>
      have hguard : l.readLocked k1 > 0 := hop
      simp only [lockStep, Locker.ReadUnlock]
      by_cases hk : k = k1
      · subst hk
        obtain ⟨h1, h2⟩ := ih
        simp only [upd, if_pos rfl]
        constructor
        · omega
        · intro ⟨hw, _⟩
          exact h2 ⟨hw, hguard⟩
      · simp only [upd, if_neg hk]
        exact ih
    | writeLock k1 =>
      simp only [lockStep, Locker.WriteLock]
      split
      · exact ih
      · split
        · exact ih
        · rename_i hw hr
          by_cases hk : k = k1
          · subst hk
            obtain ⟨h1, h2⟩ := ih
            simp only [upd, if_pos rfl]
            constructor
            · omega
            · intro ⟨_, hpos⟩
              omega
          · simp only [upd, if_neg hk]
            exact ih
    | writeUnlock k1 =>
      simp only [lockStep, Locker.WriteUnlock]
      by_cases hk : k = k1
      · subst hk
        obtain ⟨h1, h2⟩ := ih
        simp only [upd, if_pos rfl]
        simp
        omega
      · simp only [upd, if_neg hk]
        exact ih

/-- C3: in every state reachable by a sequence of locker calls whose unlocks
match previously granted locks, the read count is never negative, no key is
simultaneously write-held and read-held (and `writeLocked` being a single
boolean per key, a second concurrent writer on a key is impossible by
construction); moreover a `ReadLock` is granted exactly when the key has no
writer and a `WriteLock` exactly when the key has no writer and zero
readers. -/
theorem locker_exclusion {K : Type} [DecidableEq K] {l : Locker K}
    (h : LockerReachable l) (k : K) :
    0 ≤ l.readLocked k ∧
    ¬(l.writeLocked k = true ∧ 0 < l.readLocked k) ∧
    ((l.ReadLock k).1 = none ↔ l.writeLocked k = false) ∧
    ((l.WriteLock k).1 = none ↔ l.writeLocked k = false ∧ l.readLocked k = 0) := by
  obtain ⟨h1, h2⟩ := lockerInvAux h k
  refine ⟨h1, h2, ?_, ?_⟩
  · unfold Locker.ReadLock
    split <;> simp_all
  · unfold Locker.WriteLock
    split
    · simp_all
    · split
      · simp_all
        omega
      · simp_all
        omega

/-- Witness for C3 at the state reached by one granted read lock on key 0. -/
theorem locker_exclusion_witness :
    0 ≤ (lockStep (Locker.new Nat) (LockOp.readLock 0)).readLocked 0 ∧
    ¬((lockStep (Locker.new Nat) (LockOp.readLock 0)).writeLocked 0 = true ∧
      0 < (lockStep (Locker.new Nat) (LockOp.readLock 0)).readLocked 0) ∧
    (((lockStep (Locker.new Nat) (LockOp.readLock 0)).ReadLock 0).1 = none ↔
      (lockStep (Locker.new Nat) (LockOp.readLock 0)).writeLocked 0 = false) ∧
    (((lockStep (Locker.new Nat) (LockOp.readLock 0)).WriteLock 0).1 = none ↔
      (lockStep (Locker.new Nat) (LockOp.readLock 0)).writeLocked 0 = false ∧
      (lockStep (Locker.new Nat) (LockOp.readLock 0)).readLocked 0 = 0) :=
  by
  have h : LockerReachable (lockStep (Locker.new Nat) (LockOp.readLock 0)) :=
    LockerReachable.step LockerReachable.init trivial
  exact locker_exclusion h 0

/-- A storage state over `Nat` keys whose disk holds every bucket and no
files, with a fresh locker and empty staging. -/
def exampleFull : StorageState Nat :=
  { locker := Locker.new Nat
    buckets := fun _ => true
    files := fun _ _ => false
    tmpBuckets := fun _ => false
    tmpFiles := fun _ _ => false }

/-- A storage state over `Nat` keys with an empty disk, a fresh locker and
empty staging. -/
def exampleEmpty : StorageState Nat :=
  { locker := Locker.new Nat
    buckets := fun _ => false
    files := fun _ _ => false
    tmpBuckets := fun _ => false
    tmpFiles := fun _ _ => false }

/-- C1: evaluation of the code at the failing input.  When the bucket
directory already exists and the locker is free for the id, `CreateBucket`
write-locks the id and returns `ErrBucketAlreadyExists`, but the write lock
is still held after the call: the locker state differs from the one before
the call, and both a later `GetBucket` and a later `WriteLock` on the same id
fail with `ErrWriteLocked` — contradicting the claimed release. -/
theorem createBucket_already_exists_keeps_write_lock {K : Type} [DecidableEq K]
    (s : StorageState K) (id : K) (hb : s.buckets id = true)
    (hfree : lockFree s id) :
    (createBucket s id).1 = some Err.bucketAlreadyExists ∧
    ((createBucket s id).2).locker.writeLocked id = true ∧
    (getBucket (createBucket s id).2 id).1 = some Err.writeLocked ∧
    (((createBucket s id).2).locker.WriteLock id).1 = some Err.writeLocked := by
  obtain ⟨hw, hr⟩ := hfree
  simp [createBucket, getBucket, Locker.WriteLock, Locker.ReadLock, upd, hb, hw, hr]

/-- Witness for C1 at a concrete full-disk state and id 0. -/
theorem createBucket_already_exists_keeps_write_lock_witness :
    (createBucket exampleFull 0).1 = some Err.bucketAlreadyExists ∧
    ((createBucket exampleFull 0).2).locker.writeLocked 0 = true ∧
    (getBucket (createBucket exampleFull 0).2 0).1 = some Err.writeLocked ∧
    (((createBucket exampleFull 0).2).locker.WriteLock 0).1 =
      some Err.writeLocked :=
  createBucket_already_exists_keeps_write_lock exampleFull 0 rfl ⟨rfl, rfl⟩

/-- C2: evaluation of the code at the failing input.  On a state whose bucket
already exists locally and whose locker is free, the first `DownloadBucket`
returns success (the `BucketAlreadyExists` no-op mapping) but leaves the id
write-locked, so the second invocation in sequence fails with
`ErrWriteLocked` instead of succeeding — `DownloadBucket` is not idempotent
at the success level. -/
theorem downloadBucket_not_idempotent {K : Type} [DecidableEq K]
    (s : StorageState K) (id : K) (hb : s.buckets id = true)
    (hfree : lockFree s id) (dl dl2 : DlResult) :
    (downloadBucket s id dl).1 = none ∧
    (downloadBucket (downloadBucket s id dl).2 id dl2).1 =
      some (DownloadErr.storage Err.writeLocked) := by
  obtain ⟨hw, hr⟩ := hfree
  simp [downloadBucket, createBucket, Locker.WriteLock, upd, hb, hw, hr]

/-- Witness for C2 at a concrete full-disk state and id 0. -/
theorem downloadBucket_not_idempotent_witness :
    (downloadBucket exampleFull 0 DlResult.ok).1 = none ∧
    (downloadBucket (downloadBucket exampleFull 0 DlResult.ok).2 0
        DlResult.ok).1 = some (DownloadErr.storage Err.writeLocked) :=
  downloadBucket_not_idempotent exampleFull 0 rfl ⟨rfl, rfl⟩ DlResult.ok
    DlResult.ok

/-- C9: on an id whose bucket directory does not exist, `GetBucketMeta`
releases its read lock twice (the explicit `ReadUnlock` of the not-found
branch plus the deferred one), leaving the read count at `-1`; one further
granted `ReadLock` brings the count back to `0`, after which a `WriteLock`
is also granted although the read is still held — reader/writer exclusion is
broken for that id. -/
theorem getBucketMeta_double_unlock {K : Type} [DecidableEq K]
    (s : StorageState K) (id : K) (hb : s.buckets id = false)
    (hfree : lockFree s id) :
    (getBucketMeta s id).1 = some Err.bucketNotFound ∧
    ((getBucketMeta s id).2).locker.readLocked id = -1 ∧
    (((getBucketMeta s id).2).locker.ReadLock id).1 = none ∧
    ((((getBucketMeta s id).2).locker.ReadLock id).2).readLocked id = 0 ∧
    (((((getBucketMeta s id).2).locker.ReadLock id).2).WriteLock id).1 =
      none := by
  obtain ⟨hw, hr⟩ := hfree
  simp [getBucketMeta, Locker.ReadLock, Locker.ReadUnlock, Locker.WriteLock,
    upd, hb, hw, hr]

/-- Witness for C9 at a concrete empty-disk state and id 0. -/
theorem getBucketMeta_double_unlock_witness :
    (getBucketMeta exampleEmpty 0).1 = some Err.bucketNotFound ∧
    ((getBucketMeta exampleEmpty 0).2).locker.readLocked 0 = -1 ∧
    (((getBucketMeta exampleEmpty 0).2).locker.ReadLock 0).1 = none ∧
    ((((getBucketMeta exampleEmpty 0).2).locker.ReadLock 0).2).readLocked 0 =
      0 ∧
    (((((getBucketMeta exampleEmpty 0).2).locker.ReadLock 0).2).WriteLock
        0).1 = none :=
  getBucketMeta_double_unlock exampleEmpty 0 rfl ⟨rfl, rfl⟩

/-- C5 counterexample: with bucket 0 on disk and a free locker, a first
`CreateFile` reservation on (0, a.txt) succeeds; while it is outstanding, a
`CreateFile` on the same bucket for the different file b.txt fails with
`ErrWriteLocked`, and so does `GetBucket` on the bucket — refuting the claim
that both succeed (the source takes a write lock on the whole bucket, not a
read lock plus a composite-key write lock). -/
theorem createFile_counterexample :
    (createFile exampleFull 0 "a.txt").1 = none ∧
    (createFile (createFile exampleFull 0 "a.txt").2 0 "b.txt").1 =
      some Err.writeLocked ∧
    (getBucket (createFile exampleFull 0 "a.txt").2 0).1 =
      some Err.writeLocked := by
  refine ⟨rfl, rfl, rfl⟩

/-- C5 amended: `CreateFile` write-locks the bucket id itself.  While a file
reservation is outstanding on a bucket, any `CreateFile` on the same bucket
(any file) and any `GetBucket` on the bucket fail with `ErrWriteLocked`; the
bucket write lock is released again by the reservation closures `commit` and
`abort`. -/
theorem createFile_bucket_write_lock {K : Type} [DecidableEq K]
    (s : StorageState K) (b : K) (f1 f2 : String) (hb : s.buckets b = true)
    (hf : s.files b f1 = false) (hfree : lockFree s b) :
    (createFile s b f1).1 = none ∧
    ((createFile s b f1).2).locker.writeLocked b = true ∧
    (createFile (createFile s b f1).2 b f2).1 = some Err.writeLocked ∧
    (getBucket (createFile s b f1).2 b).1 = some Err.writeLocked ∧
    lockFree (commitFile (createFile s b f1).2 b f1) b ∧
    lockFree (abortFile (createFile s b f1).2 b) b := by
  obtain ⟨hw, hr⟩ := hfree
  simp [createFile, getBucket, commitFile, abortFile, lockFree,
    Locker.WriteLock, Locker.ReadLock, Locker.WriteUnlock, upd, hb, hf, hw,
    hr]

/-- Witness for the amended C5 at the concrete full-disk state. -/
theorem createFile_bucket_write_lock_witness :
    (createFile exampleFull 0 "a.txt").1 = none ∧
    ((createFile exampleFull 0 "a.txt").2).locker.writeLocked 0 = true ∧
    (createFile (createFile exampleFull 0 "a.txt").2 0 "b.txt").1 =
      some Err.writeLocked ∧
    (getBucket (createFile exampleFull 0 "a.txt").2 0).1 =
      some Err.writeLocked ∧
    lockFree (commitFile (createFile exampleFull 0 "a.txt").2 0 "a.txt") 0 ∧
    lockFree (abortFile (createFile exampleFull 0 "a.txt").2 0) 0 :=
  createFile_bucket_write_lock exampleFull 0 "a.txt" "b.txt" rfl rfl ⟨rfl, rfl⟩

/-- The enqueue decision of `collectArtifact` viewed as a partial map. -/
def enqOf (getMeta : GoStr → Option Int) (now : Int) (d : GoStr) : Option GoStr :=
  match collectArtifact getMeta now d with
  | .enqueued id => some id
  | _ => none

/-- The collector fold with an arbitrary starting queue appends exactly the
enqueue decisions. -/
theorem collectShard_foldl_acc (getMeta : GoStr → Option Int) (now : Int)
    (dirs : List GoStr) (acc : List GoStr) :
    dirs.foldl
      (fun acc d =>
        match collectArtifact getMeta now d with
        | .enqueued id => acc ++ [id]
        | _ => acc) acc
    = acc ++ dirs.filterMap (enqOf getMeta now) := by
  induction dirs generalizing acc with
  | nil => simp
  | cons d rest ih =>
    simp only [List.foldl_cons, List.filterMap_cons]
    cases h : collectArtifact getMeta now d with
    | err => simp [h, ih, enqOf]
    | kept => simp [h, ih, enqOf]
    | enqueued id => simp [h, ih, enqOf]

/-- When a directory name parses as an artifact ID the ID is the name
itself (the ID stores the string bytes). -/
theorem artifactIdFromString_self {d id : GoStr}
    (h : artifactIdFromString d = some id) : id = d := by
  unfold artifactIdFromString at h
  split at h
  · exact (Option.some_inj.mp h).symm
  · exact absurd h (by simp)

/-- `collectArtifact` enqueues an ID exactly when the name parses, the meta
loads, and the trash time is strictly before now. -/
theorem collectArtifact_enqueued_iff (getMeta : GoStr → Option Int)
    (now : Int) (d id : GoStr) :
    collectArtifact getMeta now d = CollectOutcome.enqueued id ↔
      (id = d ∧ artifactIdFromString d = some d ∧
        ∃ tt, getMeta d = some tt ∧ tt < now) := by
  unfold collectArtifact
  cases h : artifactIdFromString d with
  | none => simp [h]
  | some i =>
    obtain rfl : i = d := artifactIdFromString_self h
    simp only [h]
    cases hm : getMeta i with
    | none => simp [hm]
    | some tt =>
      simp only [hm]
      by_cases hlt : tt < now
      · simp only [if_pos hlt]
        constructor
        · intro he
          have hdi : i = id := by
            injection he
          subst hdi
          exact ⟨rfl, trivial, tt, rfl, hlt⟩
        · intro ⟨h1, _, _⟩
          subst h1
          rfl
      · simp only [if_neg hlt]
        constructor
        · intro he
          simp at he
        · intro ⟨h1, _, tt1, htt1, hlt1⟩
          injection htt1 with htt1
          subst htt1
          exact absurd hlt1 hlt

/-- The enqueue map hits `some` exactly on enqueued outcomes. -/
theorem enqOf_eq_some (getMeta : GoStr → Option Int) (now : Int)
    (d id : GoStr) :
    enqOf getMeta now d = some id ↔
      collectArtifact getMeta now d = CollectOutcome.enqueued id := by
  unfold enqOf
  cases h : collectArtifact getMeta now d <;> simp

/-- C8: during a collector scan of one shard, a bucket ID is enqueued exactly
when its directory name parses as an ID, its meta loads, and the current time
is strictly after the recorded trash time; an entry whose parse or meta load
fails is skipped and the scan of the remaining entries is unaffected. -/
theorem collectShard_spec (getMeta : GoStr → Option Int) (now : Int)
    (dirs : List GoStr) :
    (∀ id, id ∈ collectShard getMeta now dirs ↔
      (id ∈ dirs ∧ artifactIdFromString id = some id ∧
        ∃ tt, getMeta id = some tt ∧ tt < now)) ∧
    (∀ d, collectArtifact getMeta now d = CollectOutcome.err →
      collectShard getMeta now (d :: dirs) = collectShard getMeta now dirs) := by
  constructor
  · intro id
    unfold collectShard
    rw [collectShard_foldl_acc]
    simp only [List.nil_append, List.mem_filterMap]
    constructor
    · rintro ⟨d, hd, he⟩
      rw [enqOf_eq_some] at he
      rw [collectArtifact_enqueued_iff] at he
      obtain ⟨rfl, h2, h3⟩ := he
      exact ⟨hd, h2, h3⟩
    · rintro ⟨hd, h2, h3⟩
      refine ⟨id, hd, ?_⟩
      rw [enqOf_eq_some, collectArtifact_enqueued_iff]
      exact ⟨rfl, h2, h3⟩
  · intro d hd
    unfold collectShard
    simp only [List.foldl_cons, hd]

/-- A concrete meta oracle: only the all-zeros ID has a meta, with trash
time 0. -/
def getMetaEx : GoStr → Option Int :=
  fun id => if id = List.replicate 20 48 then some 0 else none

/-- Witness for C8: a shard listing with one malformed name and one expired
bucket, at time 1. -/
theorem collectShard_spec_witness :
    (List.replicate 20 48 ∈
        collectShard getMetaEx 1 [[97], List.replicate 20 48] ↔
      (List.replicate 20 48 ∈ [[97], List.replicate 20 48] ∧
        artifactIdFromString (List.replicate 20 48) =
          some (List.replicate 20 48) ∧
        ∃ tt, getMetaEx (List.replicate 20 48) = some tt ∧ tt < 1)) ∧
    collectShard getMetaEx 1 ([97] :: [List.replicate 20 48]) =
      collectShard getMetaEx 1 [List.replicate 20 48] :=
  ⟨(collectShard_spec getMetaEx 1 [[97], List.replicate 20 48]).1
      (List.replicate 20 48),
    (collectShard_spec getMetaEx 1 [List.replicate 20 48]).2 [97] (by decide)⟩

/-- Decoding one uppercase hex digit emitted by `%X` gives the digit back. -/
theorem hexDigitValue_hexDigitUpper {n : Nat} (h : n < 16) :
    hexDigitValue (hexDigitUpper n) = some n := by
  unfold hexDigitValue hexDigitUpper
  split_ifs <;> first
    | (congr 1; omega)
    | omega

/-- The `%X` digits are uppercase-case hex characters. -/
theorem hexDigitUpper_lt (n : Nat) (h : n < 16) :
    isUpperHexByte (hexDigitUpper n) = true := by
  unfold isUpperHexByte hexDigitUpper
  split_ifs <;> simp <;> omega

/-- Unfolding of the `%X` formatter on one byte. -/
theorem idString_cons (b : Nat) (bs : List Nat) :
    idString (b :: bs) =
      hexDigitUpper (b / 16) :: hexDigitUpper (b % 16) :: idString bs := by
  simp [idString]

/-- `hex.Decode` inverts `%X` formatting on byte lists. -/
theorem decodeHex_idString (bs : List Nat) (h : ∀ b ∈ bs, b < 256) :
    decodeHex (idString bs) = some bs := by
  induction bs with
  | nil => rfl
  | cons b rest ih =>
    have hb : b < 256 := h b (by simp)
    rw [idString_cons]
    unfold decodeHex
    rw [hexDigitValue_hexDigitUpper (by omega),
      hexDigitValue_hexDigitUpper (by omega),
      ih (fun x hx => h x (by simp [hx]))]
    show some ((b / 16 * 16 + b % 16) :: rest) = some (b :: rest)
    have hd : b / 16 * 16 + b % 16 = b := by omega
    rw [hd]

/-- The `%X` string of a byte list has twice its length. -/
theorem idString_length (bs : List Nat) :
    (idString bs).length = 2 * bs.length := by
  induction bs with
  | nil => rfl
  | cons b rest ih =>
    rw [idString_cons]
    simp [ih]
    omega

/-- A decoded hex character has value below 16 and `%X`-formats to the
uppercase fold of the character. -/
theorem hexDigitValue_some {c v : Nat} (h : hexDigitValue c = some v) :
    v < 16 ∧ hexDigitUpper v = toUpperHexByte c := by
  unfold hexDigitValue at h
  unfold hexDigitUpper toUpperHexByte
  split_ifs at h with h1 h2 h3 <;> injection h with h <;> subst h <;>
    constructor <;> first
      | (split_ifs <;> omega)
      | omega

/-- A hex character is fixed by case folding exactly when it is already in
the uppercase case. -/
theorem toUpperHexByte_eq_self {c : Nat} (h : isHexByte c = true) :
    toUpperHexByte c = c ↔ isUpperHexByte c = true := by
  unfold isHexByte hexDigitValue at h
  unfold toUpperHexByte isUpperHexByte
  split_ifs at h <;> simp_all <;> omega

/-- A map fixes a byte list exactly when it fixes each byte. -/
theorem map_toUpper_fix (l : GoStr) :
    l.map toUpperHexByte = l ↔ ∀ c ∈ l, toUpperHexByte c = c := by
  induction l with
  | nil => simp
  | cons c rest ih => simp_all

/-- An even-length string of hex characters of either case decodes, and
formatting the bytes produces the uppercase fold of the string. -/
theorem decodeHex_anyhex (s : GoStr) (hu : ∀ c ∈ s, isHexByte c = true)
    (he : s.length % 2 = 0) :
    ∃ bs, decodeHex s = some bs ∧ idString bs = s.map toUpperHexByte := by
  induction s using decodeHex.induct with
  | case1 => exact ⟨[], rfl, rfl⟩
  | case2 c => simp at he
  | case3 c1 c2 rest h l bs hbs hv2 hv1 ih =>
    obtain ⟨hlt1, hup1⟩ := hexDigitValue_some hv1
    obtain ⟨hlt2, hup2⟩ := hexDigitValue_some hv2
    obtain ⟨bs1, hbs1, hs1⟩ := ih (fun c hc => hu c (by simp [hc]))
      (by simp at he; omega)
    rw [hbs] at hbs1
    injection hbs1 with hbs1
    subst hbs1
    refine ⟨(h * 16 + l) :: bs, ?_, ?_⟩
    · unfold decodeHex
      rw [hv1, hv2, hbs]
    · rw [idString_cons]
      have h1 : (h * 16 + l) / 16 = h := by omega
      have h2 : (h * 16 + l) % 16 = l := by omega
      rw [h1, h2, hup1, hup2, hs1]
      simp
  | case4 c1 c2 rest hcontra ih =>
    obtain ⟨v1, hv1⟩ := Option.isSome_iff_exists.mp (hu c1 (by simp))
    obtain ⟨v2, hv2⟩ := Option.isSome_iff_exists.mp (hu c2 (by simp))
    obtain ⟨bs1, hbs1, hs1⟩ := ih (fun c hc => hu c (by simp [hc]))
      (by simp at he; omega)
    exact absurd (hcontra v1 v2 bs1 hv1 hv2 hbs1) (by simp)

/-- A string containing a non-hex character never decodes. -/
theorem decodeHex_badchar (s : GoStr) (hbad : ∃ c ∈ s, hexDigitValue c = none) :
    decodeHex s = none := by
  induction s using decodeHex.induct with
  | case1 => simp at hbad
  | case2 c => rfl
  | case3 c1 c2 rest h l bs hbs hv2 hv1 ih =>
    obtain ⟨c, hc, hcv⟩ := hbad
    simp at hc
    rcases hc with rfl | rfl | hc
    · rw [hcv] at hv1
      cases hv1
    · rw [hcv] at hv2
      cases hv2
    · rw [ih ⟨c, hc, hcv⟩] at hbs
      cases hbs
  | case4 c1 c2 rest hcontra ih =>
    unfold decodeHex
    cases hv1 : hexDigitValue c1 with
    | none => rfl
    | some v1 =>
      cases hv2 : hexDigitValue c2 with
      | none => rfl
      | some v2 =>
        cases hrest : decodeHex rest with
        | none => rfl
        | some bs => exact absurd (hcontra v1 v2 bs hv1 hv2 hrest) (by simp)

/-- C4 counterexample: the 40-character lowercase hex string of `a` bytes is
*accepted* by `FromString` (so the non-emitted case is not rejected) and
formats back to the uppercase string, which differs from the input — both the
rejection clause and the `format(parse(s)) == s` round trip fail on a
lowercase input. -/
theorem id_case_counterexample :
    idFromString (List.replicate 40 97) = some (List.replicate 20 170) ∧
    idString (List.replicate 20 170) = List.replicate 40 65 ∧
    List.replicate 40 65 ≠ List.replicate 40 97 := by
  refine ⟨by decide, by decide, by decide⟩

/-- C4 amended: `FromString` accepts exactly the strings of 40 hex characters
of EITHER case (invalid length or non-hex characters are rejected), and
`String()` emits uppercase; `parse(format(id)) == id` holds for every ID
value; for every accepted string, `format(parse(s))` is the uppercase fold of
`s`, so `format(parse(s)) == s` holds exactly when `s` is in the emitted
(uppercase) case — other-case strings are accepted and normalized, not
rejected. -/
theorem id_roundtrip :
    (∀ bs, validIdBytes bs → idFromString (idString bs) = some bs) ∧
    (∀ s : GoStr, s.length = 40 → (∀ c ∈ s, isHexByte c = true) →
      ∃ bs, idFromString s = some bs ∧
        idString bs = s.map toUpperHexByte ∧
        (idString bs = s ↔ ∀ c ∈ s, isUpperHexByte c = true)) ∧
    (∀ s : GoStr, s.length ≠ 40 ∨ (∃ c ∈ s, hexDigitValue c = none) →
      idFromString s = none) := by
  refine ⟨?_, ?_, ?_⟩
  · intro bs ⟨hlen, hlt⟩
    unfold idFromString
    rw [if_pos (by rw [idString_length, hlen]), decodeHex_idString bs hlt]
  · intro s hlen hhex
    obtain ⟨bs, hbs, hs⟩ := decodeHex_anyhex s hhex (by omega)
    refine ⟨bs, ?_, hs, ?_⟩
    · unfold idFromString
      rw [if_pos hlen]
      exact hbs
    · rw [hs]
      rw [map_toUpper_fix]
      constructor
      · intro hfix c hc
        exact (toUpperHexByte_eq_self (hhex c hc)).mp (hfix c hc)
      · intro hup c hc
        exact (toUpperHexByte_eq_self (hhex c hc)).mpr (hup c hc)
  · intro s h
    unfold idFromString
    rcases h with h | h
    · rw [if_neg h]
    · split
      · exact decodeHex_badchar s h
      · rfl

/-- Witness for the amended C4 on the all-zeros ID, the all-lowercase-`a`
string (accepted and normalized, with the round-trip iff), and a
one-character string. -/
theorem id_roundtrip_witness :
    idFromString (idString (List.replicate 20 0)) =
      some (List.replicate 20 0) ∧
    (∃ bs, idFromString (List.replicate 40 97) = some bs ∧
      idString bs = (List.replicate 40 97).map toUpperHexByte ∧
      (idString bs = List.replicate 40 97 ↔
        ∀ c ∈ List.replicate 40 97, isUpperHexByte c = true)) ∧
    idFromString [103] = none :=
  ⟨id_roundtrip.1 (List.replicate 20 0) ⟨by decide, by decide⟩,
    id_roundtrip.2.1 (List.replicate 40 97) (by decide) (by decide),
    id_roundtrip.2.2 [103] (Or.inl (by decide))⟩

/-- Folding `cleanPush` over ordinary components just stacks them. -/
theorem cleanFoldl_valid (cs : Path) (acc : List String)
    (h : ∀ c ∈ cs, validComp c) :
    cs.foldl cleanPush acc = cs.reverse ++ acc := by
  induction cs generalizing acc with
  | nil => simp
  | cons c rest ih =>
    obtain ⟨h1, h2, h3⟩ := h c (by simp)
    simp only [List.foldl_cons, List.reverse_cons]
    rw [show cleanPush acc c = c :: acc by simp [cleanPush, h1, h2, h3]]
    rw [ih (c :: acc) (fun x hx => h x (by simp [hx]))]
    simp

/-- `filepath.Clean` is the identity on paths of ordinary components. -/
theorem cleanComps_valid (cs : Path) (h : ∀ c ∈ cs, validComp c) :
    cleanComps cs = cs := by
  unfold cleanComps
  rw [cleanFoldl_valid cs [] h]
  simp

/-- The path string of a concatenation splits at a separator. -/
theorem pathString_append (p q : Path) (hp : p ≠ []) (hq : q ≠ []) :
    pathString (p ++ q) = pathString p ++ "/" ++ pathString q := by
  induction p with
  | nil => simp at hp
  | cons c rest ih =>
    cases rest with
    | nil =>
      cases q with
      | nil => simp at hq
      | cons d qs => simp [pathString]
    | cons c2 rest2 =>
      have hr : (c2 :: rest2 : Path) ≠ [] := by simp
      calc pathString ((c :: c2 :: rest2) ++ q)
          = c ++ "/" ++ pathString ((c2 :: rest2) ++ q) := by
            simp only [List.cons_append]
            rfl
        _ = c ++ "/" ++ (pathString (c2 :: rest2) ++ "/" ++ pathString q) := by
            rw [ih hr]
        _ = pathString (c :: c2 :: rest2) ++ "/" ++ pathString q := by
            show _ = (c ++ "/" ++ pathString (c2 :: rest2)) ++ "/" ++ pathString q
            simp [String.append_assoc]

/-- A component-wise ancestor path renders to a string prefix. -/
theorem pathString_ancestor {p q : Path} (h : p <+: q) :
    (pathString p).data <+: (pathString q).data := by
  obtain ⟨r, rfl⟩ := h
  cases hr : r with
  | nil => simp
  | cons d rs =>
    cases hp : p with
    | nil => simp [pathString]
    | cons c cs =>
      rw [← hp, ← hr, pathString_append p r (by simp [hp]) (by simp [hr])]
      rw [String.data_append, String.data_append]
      rw [List.append_assoc]
      exact List.prefix_append _ _

/-- The emitted header determines the walked entry. -/
theorem tarOf_inj {p p1 : Path} {n n1 : FSNode}
    (h : tarOf p n = tarOf p1 n1) : p = p1 ∧ n = n1 := by
  cases n <;> cases n1 <;> simp [tarOf] at h <;> simp_all

/-- Membership in a `SendFile` stream is exactly the string-prefix filter of
the source. -/
theorem sendFile_mem_iff (t : Tree) (file : Path) (p : Path) (n : FSNode) :
    tarOf p n ∈ sendFile file t ↔
      ((p, n) ∈ t ∧ p ≠ [] ∧
        strHasPref (pathString (cleanComps file))
          (pathString (cleanComps p)) = true) := by
  unfold sendFile
  rw [List.mem_map]
  constructor
  · rintro ⟨pe, hpe, he⟩
    rw [List.mem_filter] at hpe
    obtain ⟨hmem, hcond⟩ := hpe
    obtain ⟨rfl, rfl⟩ := tarOf_inj he
    simp at hcond
    exact ⟨hmem, hcond.1, hcond.2⟩
  · rintro ⟨hmem, hne, hpref⟩
    refine ⟨(p, n), ?_, rfl⟩
    rw [List.mem_filter]
    exact ⟨hmem, by simp [hne, hpref]⟩

/-- C6 amended: `SendFile` emits exactly the walked entries whose cleaned
relative-path string is a string prefix of the cleaned target-path string;
this includes every component-wise ancestor of the target and the target
itself, but also any entry whose rendered path merely starts the target
string. -/
theorem sendFile_filter_spec (t : Tree) (file : Path) :
    (∀ p n, tarOf p n ∈ sendFile file t ↔
      ((p, n) ∈ t ∧ p ≠ [] ∧
        strHasPref (pathString (cleanComps file))
          (pathString (cleanComps p)) = true)) ∧
    (∀ p n, (p, n) ∈ t → p ≠ [] → (∀ c ∈ file, validComp c) →
      p <+: file → tarOf p n ∈ sendFile file t) := by
  refine ⟨sendFile_mem_iff t file, ?_⟩
  intro p n hmem hne hval hpref
  rw [sendFile_mem_iff]
  refine ⟨hmem, hne, ?_⟩
  have hvp : ∀ c ∈ p, validComp c := fun c hc => hval c (hpref.subset hc)
  rw [cleanComps_valid file hval, cleanComps_valid p hvp]
  unfold strHasPref
  rw [List.isPrefixOf_iff_prefix]
  exact pathString_ancestor hpref

/-- A two-entry directory: a file named `a` and its sibling `ab.txt`. -/
def treeC6 : Tree :=
  [(["a"], FSNode.file [120] 420), (["ab.txt"], FSNode.file [121] 420)]

/-- C6 counterexample: serving `ab.txt` also emits the sibling regular file
`a`, whose name is merely a string prefix of the target and which is neither
a component-wise ancestor of `ab.txt` nor the target itself. -/
theorem sendFile_sibling_counterexample :
    TarEntry.file ["a"] [120] 420 ∈ sendFile ["ab.txt"] treeC6 ∧
    ¬ (["a"] : Path) <+: ["ab.txt"] ∧ (["a"] : Path) ≠ ["ab.txt"] := by
  refine ⟨by decide, by decide, by decide⟩

/-- Witness for the amended C6: the target file itself is emitted. -/
theorem sendFile_filter_spec_witness :
    tarOf ["ab.txt"] (FSNode.file [121] 420) ∈ sendFile ["ab.txt"] treeC6 :=
  (sendFile_filter_spec treeC6 ["ab.txt"]).2 ["ab.txt"]
    (FSNode.file [121] 420) (by decide) (by decide)
    (by
      intro c hc
      simp at hc
      subst hc
      exact ⟨by decide, by decide, by decide⟩)
    (List.prefix_refl _)

/-- C10: a well-formed stream containing a regular-file header named `../x`
makes `Receive` into destination `dst` materialize the file at `x`, outside
the destination directory (the target path is the plain `filepath.Join` of
the destination and the header name, with no rejection of `..` components),
and nothing is created below `dst`. -/
theorem receive_escapes_destination :
    receive ["dst"] emptyFS [TarEntry.file ["..", "x"] [104] 420] ["x"] =
      some (FSNode.file [104] 420) ∧
    ¬ (["dst"] : Path) <+: ["x"] ∧
    receive ["dst"] emptyFS [TarEntry.file ["..", "x"] [104] 420]
      ["dst", "x"] = none := by
  refine ⟨by decide, by decide, by decide⟩

/-- `MkdirAll` never replaces an existing node. -/
theorem mkdirAll_preserve (fs : FSMap) (p q : Path) (n : FSNode)
    (h : fs q = some n) : mkdirAll fs p q = some n := by
  unfold mkdirAll
  split_ifs with hc
  · exact absurd h (by simp [hc.2.2])
  · exact h

/-- A received file lands at its path with the mode masked to `0777`. -/
theorem writeFile_self (fs : FSMap) (p : Path) (c : List Nat) (m : Nat) :
    writeFile fs p c m p = some (FSNode.file c (m % 512)) := by
  simp [writeFile]

/-- Writing a file leaves every other path unchanged. -/
theorem writeFile_other (fs : FSMap) {p q : Path} (c : List Nat) (m : Nat)
    (h : q ≠ p) : writeFile fs p c m q = fs q := by
  simp [writeFile, h]

/-- Processing one entry preserves an existing node at any path that is not
the entry's own file target. -/
theorem receiveOne_preserve (dst : Path) (fs : FSMap) (e : TarEntry)
    (q : Path) (n : FSNode) (hq : fs q = some n)
    (hfile : ∀ nm c m, e = TarEntry.file nm c m →
      cleanComps (dst ++ nm) ≠ q) :
    receiveOne dst fs e q = some n := by
  cases e with
  | dir nm => exact mkdirAll_preserve _ _ _ _ hq
  | file nm c m =>
    simp only [receiveOne]
    rw [writeFile_other _ _ _ (Ne.symm (hfile nm c m rfl))]
    exact mkdirAll_preserve _ _ _ _ hq

/-- Processing a stream preserves an existing node at any path no entry of
the stream writes a file to. -/
theorem receive_preserve (dst : Path) (es : List TarEntry) (fs : FSMap)
    (q : Path) (n : FSNode) (hq : fs q = some n)
    (h : ∀ e ∈ es, ∀ nm c m, e = TarEntry.file nm c m →
      cleanComps (dst ++ nm) ≠ q) :
    receive dst fs es q = some n := by
  induction es generalizing fs with
  | nil => exact hq
  | cons e rest ih =>
    unfold receive
    simp only [List.foldl_cons]
    exact ih (receiveOne dst fs e)
      (receiveOne_preserve dst fs e q n hq (h e (by simp)))
      (fun e1 he1 => h e1 (by simp [he1]))

/-- Round-trip core, by induction over the walked entries with an arbitrary
starting filesystem. -/
theorem receive_sendDir_aux (t : Tree) (fs : FSMap)
    (hval : ∀ pe ∈ t, pe.1 ≠ [] ∧ ∀ c ∈ pe.1, validComp c)
    (hnd : (t.map Prod.fst).Nodup) :
    ∀ p c m, (p, FSNode.file c m) ∈ t →
      receive [] fs (sendDir t) p = some (FSNode.file c (m % 512)) := by
  induction t generalizing fs with
  | nil =>
    intro p c m hmem
    simp at hmem
  | cons pe rest ih =>
    intro p c m hmem
    have hsend : sendDir (pe :: rest) = tarOf pe.1 pe.2 :: sendDir rest := rfl
    rw [hsend]
    unfold receive
    simp only [List.foldl_cons]
    rcases List.mem_cons.mp hmem with heq | hmem1
    · obtain rfl : pe = (p, FSNode.file c m) := heq.symm
      have hvp : ∀ c1 ∈ p, validComp c1 :=
        (hval (p, FSNode.file c m) (by simp)).2
      have habs : cleanComps (([] : Path) ++ p) = p := by
        rw [List.nil_append]
        exact cleanComps_valid p hvp
      apply receive_preserve
      · show receiveOne [] fs (tarOf p (FSNode.file c m)) p =
          some (FSNode.file c (m % 512))
        simp only [tarOf, receiveOne, habs]
        exact writeFile_self _ _ _ _
      · intro e he nm c1 m1 he1 habs1
        rw [List.nil_append] at habs1
        obtain ⟨pe1, hpe1, hte⟩ := List.mem_map.mp he
        rw [he1] at hte
        obtain ⟨p1, n1⟩ := pe1
        cases n1 with
        | dir => exact absurd hte (by simp [tarOf])
        | file c2 m2 =>
          simp only [tarOf, TarEntry.file.injEq] at hte
          obtain ⟨rfl, rfl, rfl⟩ := hte
          have hv1 : ∀ c3 ∈ p1, validComp c3 :=
            (hval (p1, FSNode.file c2 m2) (by simp [hpe1])).2
          rw [cleanComps_valid p1 hv1] at habs1
          subst habs1
          have hnotin : p1 ∉ rest.map Prod.fst := by
            simp only [List.map_cons, List.nodup_cons] at hnd
            exact hnd.1
          exact hnotin (List.mem_map.mpr ⟨(p1, FSNode.file c2 m2), hpe1, rfl⟩)
    · exact ih (receiveOne [] fs (tarOf pe.1 pe.2))
        (fun pe1 hpe1 => hval pe1 (by simp [hpe1]))
        (by simp only [List.map_cons, List.nodup_cons] at hnd; exact hnd.2)
        p c m hmem1

/-- C7: receiving the stream produced by `Send` on a well-formed directory
tree into an empty destination reproduces every regular file at its relative
path, with identical content and with the mode bits masked to `0777`. -/
theorem tar_roundtrip (t : Tree) (hwf : wfTree t) :
    ∀ p c m, (p, FSNode.file c m) ∈ t →
      receive [] emptyFS (sendDir t) p = some (FSNode.file c (m % 512)) :=
  receive_sendDir_aux t emptyFS hwf.1 hwf.2.1

/-- A four-entry tree with two directories and two files. -/
def treeC7 : Tree :=
  [(["a"], FSNode.dir), (["a", "x.bin"], FSNode.file [120, 120, 120] 438),
    (["b"], FSNode.dir), (["b", "y.txt"], FSNode.file [121] 292)]

/-- Witness for C7 on the concrete tree: both files round-trip. -/
theorem tar_roundtrip_witness :
    receive [] emptyFS (sendDir treeC7) ["a", "x.bin"] =
      some (FSNode.file [120, 120, 120] (438 % 512)) ∧
    receive [] emptyFS (sendDir treeC7) ["b", "y.txt"] =
      some (FSNode.file [121] (292 % 512)) :=
  ⟨tar_roundtrip treeC7 ⟨by decide, by decide, by decide⟩ ["a", "x.bin"]
      [120, 120, 120] 438 (by decide),
    tar_roundtrip treeC7 ⟨by decide, by decide, by decide⟩ ["b", "y.txt"]
      [121] 292 (by decide)⟩

end FileStorage
